import Mathlib

/-!
Verification development for the MBP University ingestion and retrieval
pipeline (`ingest.py`, `retriever.py`, `config.py`).

Strings are modelled as `List Char` (ASCII is the relevant alphabet for the
heuristics involved).  Python's float computation `int(len(text.split())*1.3)`
is modelled exactly as IEEE-754 round-to-nearest-even over the rationals,
expressed in `Nat` arithmetic (`pyApproxTokenCount`); the model is exact for
word counts below `2^53`, where the `int → float` conversion is lossless.
The FAISS library and the sentence-transformer encoder are external
capabilities and appear as abstract function parameters, as does the
filesystem in `ingest_all`.
-/

/-- Python `\s` / `str.split()` whitespace over ASCII. -/
def pyIsSpace (c : Char) : Bool :=
  c = ' ' || c = '\t' || c = '\n' || c = '\r' || c = '\x0b' || c = '\x0c'

/-- Python `str.strip()`: drop leading and trailing whitespace. -/
def pyStrip (l : List Char) : List Char :=
  ((l.dropWhile pyIsSpace).reverse.dropWhile pyIsSpace).reverse

/-- Python `str.rstrip(set)`: drop trailing characters belonging to `set`. -/
def pyRstrip (set : List Char) (l : List Char) : List Char :=
  (l.reverse.dropWhile (fun c => set.contains c)).reverse

/-- Helper for `pyWords`: accumulate the current word (reversed) while
scanning; emit maximal runs of non-whitespace characters. -/
def wordsAux : List Char → List Char → List (List Char)
  | [], acc => if acc.isEmpty then [] else [acc.reverse]
  | c :: rest, acc =>
      if pyIsSpace c then
        if acc.isEmpty then wordsAux rest [] else acc.reverse :: wordsAux rest []
      else
        wordsAux rest (c :: acc)

/-- Python `str.split()` with no argument: maximal non-whitespace runs. -/
def pyWords (l : List Char) : List (List Char) :=
  wordsAux l []

/-- `len(text.split())`. -/
def countWords (l : List Char) : ℕ :=
  (pyWords l).length

/-- The IEEE-754 double nearest `1.3`, scaled by `2^52`
(`1.3 = 5854679515581645 / 2^52` after rounding). -/
def FL13 : ℕ := 5854679515581645

/-- For `x = p / 2^52`, the number of mantissa bits lost when `x` is stored
as a double: `0` when `p < 2^53`, else `⌊log2 p⌋ - 52`.  Valid for
`p < 2^203`, far beyond every use in this development. -/
def ulpShift (p : ℕ) : ℕ :=
  ((List.range 150).filter (fun s => 2 ^ (53 + s) ≤ p)).length

/-- Round-to-nearest, ties-to-even, of `(q * twoS + r) / twoS`
with `0 ≤ r < twoS`: the rounded quotient. -/
def roundHalfEven (q r twoS : ℕ) : ℕ :=
  if 2 * r < twoS then q
  else if twoS < 2 * r then q + 1
  else if q % 2 = 0 then q else q + 1

/-- Exact model of Python's `int(n * 1.3)` for a word count `n`: the product
`n * fl(1.3)` is an exact integer multiple of `2^-52`, it is rounded to the
nearest double (ties to even), and `int` truncates.  Exact for `n < 2^53`
(above that Python additionally rounds `n` itself on conversion to float). -/
def pyApproxTokenCount (n : ℕ) : ℕ :=
  if ulpShift (n * FL13) = 0 then n * FL13 / 2 ^ 52
  else
    roundHalfEven (n * FL13 / 2 ^ ulpShift (n * FL13)) (n * FL13 % 2 ^ ulpShift (n * FL13))
        (2 ^ ulpShift (n * FL13)) * 2 ^ ulpShift (n * FL13) / 2 ^ 52

/-- `ingest.py` `_approx_token_count`: `int(len(text.split()) * 1.3)`. -/
def approx_token_count (text : List Char) : ℕ :=
  pyApproxTokenCount (countWords text)

/-- A string of `n` words (`"a a a … "`), used to exhibit a concrete text
with a prescribed word count. -/
def wordsRep : ℕ → List Char
  | 0 => []
  | n + 1 => 'a' :: ' ' :: wordsRep n

/-- `"\n".join(parts)` / `" ".join(parts)` / `" | ".join(parts)`. -/
def joinWith (sep : List Char) : List (List Char) → List Char
  | [] => []
  | [x] => x
  | x :: y :: rest => x ++ sep ++ joinWith sep (y :: rest)

/-- A retrieval unit (a chunk dict from `ingest.py`).  SOP chunks carry
`text`, `section`, `source`, `type`; FAQ chunks additionally carry `topic`,
`location`, `question`, `resource_link`.  Keys a given dict lacks are `none`.
(`section` is `sectionF` because `section` is a Lean keyword.) -/
structure Chunk where
  text : List Char
  source : List Char
  ctype : List Char
  sectionF : Option (List Char) := none
  topic : Option (List Char) := none
  location : Option (List Char) := none
  question : Option (List Char) := none
  resource_link : Option (List Char) := none
deriving DecidableEq

/-- A chunk with the similarity score attached by `retriever.search`. -/
structure ScoredResult where
  chunk : Chunk
  score : ℚ
deriving DecidableEq

/-- `config.py` `CHUNK_MAX_TOKENS`. -/
def CHUNK_MAX_TOKENS : ℕ := 1000

/-- `config.py` `CHUNK_OVERLAP_TOKENS`. -/
def CHUNK_OVERLAP_TOKENS : ℕ := 100

/-- Head-of-list whitespace test (for the regex lookahead in `sentSplit`). -/
def headIsSpace : List Char → Bool
  | [] => false
  | c :: _ => pyIsSpace c

/-- Sentence punctuation class `[.!?]`. -/
def isSentencePunct (c : Char) : Bool :=
  c = '.' || c = '!' || c = '?'

/-- Scanner for `re.split(r"(?<=[.!?])\s+", text)`: cut after a
punctuation character that is followed by whitespace, consuming the
maximal whitespace run.  Structural recursion on a fuel argument (every
step consumes at least one character and one unit of fuel, so fuel
`≥ length + 1` is never exhausted). -/
def sentSplitAux : ℕ → List Char → List Char → List (List Char)
  | 0, _, acc => [acc.reverse]
  | _ + 1, [], acc => [acc.reverse]
  | fuel + 1, c :: rest, acc =>
      if isSentencePunct c && headIsSpace rest then
        (c :: acc).reverse :: sentSplitAux fuel (rest.dropWhile pyIsSpace) []
      else
        sentSplitAux fuel rest (c :: acc)

/-- `re.split(r"(?<=[.!?])\s+", text)`. -/
def sentSplit (l : List Char) : List (List Char) :=
  sentSplitAux (l.length + 1) l []

/-- Sum of the per-sentence token estimates (the `current_tokens`
accumulator of `_split_large_chunk`). -/
def sumTok (L : List (List Char)) : ℕ :=
  (L.map approx_token_count).sum

/-- The overlap computation of `_split_large_chunk`: walk the emitted
sentences from the end, prepending while the accumulated estimate stays
within `overlap_tokens`. -/
def overlapGo (ovT : ℕ) : List (List Char) → List (List Char) → ℕ → List (List Char)
  | [], acc, _ => acc
  | s :: rest, acc, cnt =>
      if cnt + approx_token_count s > ovT then acc
      else overlapGo ovT rest (s :: acc) (cnt + approx_token_count s)

/-- The overlap suffix kept when a sub-chunk is emitted. -/
def overlapSuffix (ovT : ℕ) (cur : List (List Char)) : List (List Char) :=
  overlapGo ovT cur.reverse [] 0

/-- The sentence-accumulation loop of `_split_large_chunk`: emit the
accumulated sentences when the next sentence would push past `max_tokens`
(and something is accumulated), reseeding with the overlap suffix; emit any
leftover at the end. -/
def splitGo (maxT ovT : ℕ) : List (List Char) → List (List Char) → ℕ → List (List (List Char))
  | [], cur, _ => if cur = [] then [] else [cur]
  | s :: rest, cur, tk =>
      if tk + approx_token_count s > maxT ∧ cur ≠ [] then
        cur :: splitGo maxT ovT rest (overlapSuffix ovT cur ++ [s])
          (sumTok (overlapSuffix ovT cur) + approx_token_count s)
      else
        splitGo maxT ovT rest (cur ++ [s]) (tk + approx_token_count s)

/-- `ingest.py` `_split_large_chunk`. -/
def split_large_chunk (chunk : Chunk) (max_tokens overlap_tokens : ℕ) : List Chunk :=
  if approx_token_count chunk.text ≤ max_tokens then [chunk]
  else
    let sentences := sentSplit chunk.text
    let section_prefix : List Char :=
      match chunk.sectionF with
      | some s => if s.isEmpty then [] else "## ".toList ++ s ++ ['\n']
      | none => []
    (splitGo max_tokens overlap_tokens sentences [] 0).map
      (fun L => { chunk with text := section_prefix ++ joinWith [' '] L })


/-- ASCII `str.lower()` on one character. -/
def pyLowerChar (c : Char) : Char :=
  if 'A' ≤ c ∧ c ≤ 'Z' then Char.ofNat (c.toNat + 32) else c

/-- ASCII `str.lower()`. -/
def pyLower (l : List Char) : List Char :=
  l.map pyLowerChar

/-- ASCII `c.isupper()`. -/
def isUpperA (c : Char) : Bool :=
  'A' ≤ c && c ≤ 'Z'

/-- `sum(1 for c in text if c.isupper())`. -/
def countUpper (l : List Char) : ℕ :=
  (l.filter isUpperA).length

/-- `text.replace(" ", "")`. -/
def removeSpaces (l : List Char) : List Char :=
  l.filter (fun c => c ≠ ' ')

/-- `str.startswith(pat)`. -/
def startsWith : List Char → List Char → Bool
  | [], _ => true
  | _ :: _, [] => false
  | a :: pa, b :: l => a = b && startsWith pa l

/-- Python `pat in s` (substring containment). -/
def containsSub (pat : List Char) : List Char → Bool
  | [] => startsWith pat []
  | s@(_ :: rest) => startsWith pat s || containsSub pat rest

/-- One text run of a docx paragraph.  python-docx's `run.bold` is
tri-state (`True`/`False`/`None`); only its truthiness is ever used, so
`None` is modelled as `false`. -/
structure Run where
  text : List Char
  bold : Bool
deriving DecidableEq

/-- A docx paragraph; its `text` property is the concatenation of its
runs' texts, as in python-docx. -/
structure Para where
  runs : List Run
deriving DecidableEq

/-- `paragraph.text`. -/
def Para.text (p : Para) : List Char :=
  (p.runs.map Run.text).flatten

/-- The `_GENERIC_LABELS` stop-set of `_is_section_heading`. -/
def GENERIC_LABELS : List (List Char) :=
  ["steps", "purpose", "owner", "timing", "when applicable",
   "contact history", "cs attempts", "collection attempts",
   "requested assistance", "common triggers", "summary of call",
   "accounting impact", "interest application"].map String.toList

/-- `runs_with_text`: runs whose stripped text is non-empty. -/
def runsWithText (p : Para) : List Run :=
  p.runs.filter (fun r => !(pyStrip r.text).isEmpty)

/-- `clean = text.rstrip(":- ")` computed from the stripped paragraph text. -/
def cleanOf (p : Para) : List Char :=
  pyRstrip [':', '-', ' '] (pyStrip p.text)

/-- The dialogue/template exclusion: any of the four greeting-like
substrings occurring in the lowered text. -/
def dialogueHit (lowered : List Char) : Bool :=
  containsSub "hi [".toList lowered || containsSub "this is [".toList lowered ||
  containsSub "thank you".toList lowered || containsSub "calling from".toList lowered

/-- `ingest.py` `_is_section_heading`.  The float comparison
`upper_ratio > 0.6` is modelled as the exact `5 * upper > 3 * denom`;
with `denom ≤ 120` and `upper ≤ 120` the correctly-rounded double
division compares to the double literal `0.6` exactly as the rational
ratio compares to `3/5`, so the two are equivalent on every input that
reaches this test. -/
def is_section_heading (p : Para) : Bool :=
  if pyStrip p.text = [] ∨ 120 < (pyStrip p.text).length then false
  else if runsWithText p = [] then false
  else if ¬(∀ r ∈ runsWithText p, r.bold = true) then false
  else if pyLower (cleanOf p) ∈ GENERIC_LABELS then false
  else if startsWith "owner:".toList (pyLower (cleanOf p)) then false
  else if startsWith "timing:".toList (pyLower (cleanOf p)) then false
  else if dialogueHit (pyLower (pyStrip p.text)) then false
  else if 3 * max (removeSpaces (pyStrip p.text)).length 1 < 5 * countUpper (pyStrip p.text) then true
  else if (pyStrip p.text).length < 80 ∧ 2 ≤ (pyWords (cleanOf p)).length then true
  else false

/-- A body element of a docx document, in document order: a paragraph or
a table (a table being its rows of cell texts). -/
inductive BodyElem where
  | para (p : Para)
  | table (rows : List (List (List Char)))
deriving DecidableEq

/-- `ingest.py` `_extract_table_text`. -/
def extract_table_text (rows : List (List (List Char))) : List Char :=
  joinWith ['\n'] (rows.map (fun cells => joinWith " | ".toList (cells.map pyStrip)))

/-- `_flush` of `parse_docx`: join the accumulated parts, strip, and emit
a section chunk when non-empty. -/
def flushSection (filename curSec : List Char) (parts : List (List Char)) : List Chunk :=
  let t := pyStrip (joinWith ['\n'] parts)
  if t.isEmpty then []
  else [{ text := t, source := filename, ctype := "sop".toList, sectionF := some curSec }]

/-- The body walk of `parse_docx`: headings flush the buffer and start a
new section seeded with a `## <heading>` marker; non-empty paragraphs and
non-empty table renderings are appended to the buffer. -/
def parseLoop (filename : List Char) : List BodyElem → List Char → List (List Char) → List Chunk
  | [], curSec, parts => flushSection filename curSec parts
  | .para p :: rest, curSec, parts =>
      if is_section_heading p then
        flushSection filename curSec parts ++
          parseLoop filename rest (pyStrip p.text) ["## ".toList ++ pyStrip p.text]
      else if (pyStrip p.text).isEmpty then parseLoop filename rest curSec parts
      else parseLoop filename rest curSec (parts ++ [pyStrip p.text])
  | .table rows :: rest, curSec, parts =>
      let tt := extract_table_text rows
      if (pyStrip tt).isEmpty then parseLoop filename rest curSec parts
      else parseLoop filename rest curSec (parts ++ [tt])

/-- `ingest.py` `parse_docx`, over the document's body elements. -/
def parse_docx (elements : List BodyElem) (filename : List Char) : List Chunk :=
  parseLoop filename elements "Introduction".toList []

/-- The buffer contents a heading-free document accumulates, in order:
stripped non-empty paragraph texts and non-blank table renderings. -/
def bodyParts : List BodyElem → List (List Char)
  | [] => []
  | .para p :: rest =>
      if (pyStrip p.text).isEmpty then bodyParts rest
      else pyStrip p.text :: bodyParts rest
  | .table rows :: rest =>
      let tt := extract_table_text rows
      if (pyStrip tt).isEmpty then bodyParts rest
      else tt :: bodyParts rest


/-- The docx loop of `ingest_all`: each file is a basename paired with its
parse outcome (`none` models a raised exception, which the loop catches and
skips).  On success every section is run through `_split_large_chunk` with
the configured budgets and the filename is appended. -/
def ingestDocx : List (List Char × Option (List BodyElem)) → List Chunk × List (List Char)
  | [] => ([], [])
  | f :: rest =>
      let tail := ingestDocx rest
      match f.2 with
      | some elems =>
          ((parse_docx elems f.1).flatMap
              (fun sec => split_large_chunk sec CHUNK_MAX_TOKENS CHUNK_OVERLAP_TOKENS) ++ tail.1,
           f.1 :: tail.2)
      | none => tail

/-- The xlsx loop of `ingest_all`.  `parse_xlsx` does spreadsheet I/O, so
its outcome per file is supplied abstractly: `none` models a raised
exception, `some chunks` the parsed FAQ rows (never split). -/
def ingestXlsx : List (List Char × Option (List Chunk)) → List Chunk × List (List Char)
  | [] => ([], [])
  | f :: rest =>
      let tail := ingestXlsx rest
      match f.2 with
      | some chunks => (chunks ++ tail.1, f.1 :: tail.2)
      | none => tail

/-- `ingest.py` `ingest_all`: all docx files first, then all xlsx files,
concatenating chunks and contributing filenames in that order. -/
def ingest_all (docxFiles : List (List Char × Option (List BodyElem)))
    (xlsxFiles : List (List Char × Option (List Chunk))) :
    List Chunk × List (List Char) :=
  let a := ingestDocx docxFiles
  let b := ingestXlsx xlsxFiles
  (a.1 ++ b.1, a.2 ++ b.2)

/-- A FAISS flat inner-product index: the stored row vectors (in insertion
order), the row count, and the library's search behaviour for this index,
returning (score, row-id) pairs for a query vector and a requested `k`.
FAISS is an external library; its search is an abstract function here. -/
structure FaissIndex where
  ntotal : ℕ
  vecs : List (List ℚ)
  searchFn : List ℚ → ℕ → List (ℚ × ℤ)

/-- `ingest.py` `build_vector_store`: embed every chunk's text in corpus
order and add the rows to a fresh index.  `encode` abstracts
`model.encode` (one text at a time), `fsearch` abstracts the FAISS flat
inner-product search over the stored rows. -/
def build_vector_store (chunks : List Chunk) (encode : List Char → List ℚ)
    (fsearch : List (List ℚ) → List ℚ → ℕ → List (ℚ × ℤ)) : FaissIndex :=
  let embeddings := chunks.map (fun c => encode c.text)
  { ntotal := embeddings.length, vecs := embeddings, searchFn := fsearch embeddings }

/-- `retriever.py` `search`.  A `none` index or empty metadata short-circuits
to `[]`.  Otherwise every returned (score, id) pair with a non-negative id
is mapped back to `metadata[id]` with the score attached.  (An id beyond
`len(metadata)` would raise in Python; it is modelled as skipped — no claim
concerns that case.) -/
def search (query : List Char) (index : Option FaissIndex) (metadata : List Chunk)
    (encode : List Char → List ℚ) (top_k : ℕ) : List ScoredResult :=
  match index with
  | none => []
  | some idx =>
      if metadata.isEmpty then []
      else
        let query_vec := encode query
        let pairs := idx.searchFn query_vec (min top_k idx.ntotal)
        pairs.filterMap (fun (si : ℚ × ℤ) =>
          if si.2 < 0 then none
          else
            match metadata.get? si.2.toNat with
            | some c => some (⟨c, si.1⟩ : ScoredResult)
            | none => none)

/-- The deduplication key string of `format_sources_for_display`:
`"faq-" + question` for FAQ results, `"sop-" + source + "-" + section`
for SOP results (missing keys default to `""`, as `r.get` does). -/
def strKey (r : ScoredResult) : List Char :=
  if r.chunk.ctype = "faq".toList then
    "faq-".toList ++ r.chunk.question.getD []
  else
    "sop-".toList ++ r.chunk.source ++ ['-'] ++ r.chunk.sectionF.getD []

/-- The deduplication key the specification describes: `(kind, question)`
for tabular-record results, `(kind, source, section)` for
structured-section results. -/
inductive DedupKey where
  | faq (question : List Char)
  | sop (source : List Char) (sectionF : List Char)
deriving DecidableEq

/-- The spec-level tuple key of a scored result. -/
def tupleKey (r : ScoredResult) : DedupKey :=
  if r.chunk.ctype = "faq".toList then .faq (r.chunk.question.getD [])
  else .sop r.chunk.source (r.chunk.sectionF.getD [])

/-- The display line(s) one kept result contributes: the citation line,
plus a resource-link line for FAQ results with a truthy link. -/
def renderSourceLines (r : ScoredResult) : List (List Char) :=
  if r.chunk.ctype = "faq".toList then
    ("• **MBP University FAQ** → Topic: ".toList ++ r.chunk.topic.getD "N/A".toList ++
      ", Row: \"".toList ++ r.chunk.question.getD "N/A".toList ++ ['"']) ::
    (match r.chunk.resource_link with
     | some l => if l.isEmpty then [] else ["  🔗 Related Resource: ".toList ++ l]
     | none => [])
  else
    ["• **".toList ++ r.chunk.source ++ "** → Section: \"".toList ++
      r.chunk.sectionF.getD "N/A".toList ++ ['"']]

/-- The results `format_sources_for_display` keeps: first occurrence of
each key string wins, later occurrences are skipped. -/
def keptSources (seen : List (List Char)) : List ScoredResult → List ScoredResult
  | [] => []
  | r :: rest =>
      if strKey r ∈ seen then keptSources seen rest
      else r :: keptSources (strKey r :: seen) rest

/-- The line-emitting loop of `format_sources_for_display`, exactly as the
source interleaves deduplication and rendering. -/
def sourcesLoop (seen : List (List Char)) : List ScoredResult → List (List Char)
  | [] => []
  | r :: rest =>
      if strKey r ∈ seen then sourcesLoop seen rest
      else renderSourceLines r ++ sourcesLoop (strKey r :: seen) rest

/-- `retriever.py` `format_sources_for_display`. -/
def format_sources_for_display (results : List ScoredResult) : List Char :=
  if results.isEmpty then "No sources found.".toList
  else joinWith ['\n'] (sourcesLoop [] results)

/-! ## Theorems -/

/-- A sample SOP chunk used by concrete witnesses. -/
def sampleChunk : Chunk :=
  { text := "hello there".toList, source := "a.docx".toList, ctype := "sop".toList,
    sectionF := some "Intro".toList }

/-- C3: a unit whose estimated token count is at most `max_tokens` comes
back from `_split_large_chunk` as a singleton list containing the unit
itself, text and every metadata field unchanged. -/
theorem split_large_chunk_small_identity (c : Chunk) (maxT ovT : ℕ)
    (h : approx_token_count c.text ≤ maxT) :
    split_large_chunk c maxT ovT = [c] := by
  simp [split_large_chunk, h]

theorem split_large_chunk_small_identity_witness :
    approx_token_count sampleChunk.text ≤ 1000 ∧
      split_large_chunk sampleChunk 1000 100 = [sampleChunk] :=
  ⟨by decide, split_large_chunk_small_identity sampleChunk 1000 100 (by decide)⟩

/-- C5: `search` returns the empty list (and in particular raises nothing:
it is total) whenever the index is `None` or the metadata list is empty. -/
theorem search_empty_or_absent_returns_nil (query : List Char) (index : Option FaissIndex)
    (metadata : List Chunk) (encode : List Char → List ℚ) (top_k : ℕ)
    (h : index = none ∨ metadata = []) :
    search query index metadata encode top_k = [] := by
  rcases h with h | h
  · subst h; rfl
  · subst h
    cases index with
    | none => rfl
    | some idx => simp [search]

theorem search_empty_or_absent_returns_nil_witness :
    ((none : Option FaissIndex) = none ∨ ([sampleChunk] : List Chunk) = []) ∧
      search "q".toList none [sampleChunk] (fun _ => [(1 : ℚ)]) 5 = [] :=
  ⟨Or.inl rfl,
    search_empty_or_absent_returns_nil "q".toList none [sampleChunk]
      (fun _ => [(1 : ℚ)]) 5 (Or.inl rfl)⟩

/-- First member of the colliding SOP pair: source `"a-b"`, section `"c"`. -/
def collideR1 : ScoredResult :=
  ⟨{ text := "t1".toList, source := "a-b".toList, ctype := "sop".toList,
     sectionF := some "c".toList }, 1⟩

/-- Second member of the colliding SOP pair: source `"a"`, section `"b-c"`. -/
def collideR2 : ScoredResult :=
  ⟨{ text := "t2".toList, source := "a".toList, ctype := "sop".toList,
     sectionF := some "b-c".toList }, 1⟩

/-- C10: two structured-section results with distinct `(source, section)`
pairs can share the string key `"sop-" + source + "-" + section`;
`format_sources_for_display` then keeps only the first of them, silently
dropping a non-duplicate: on `[collideR1, collideR2]` the tuple keys
differ, the string keys coincide, only `collideR1` survives, and the
rendered output is exactly its single citation line. -/
theorem sop_dedup_key_collision :
    tupleKey collideR1 ≠ tupleKey collideR2 ∧
      strKey collideR1 = strKey collideR2 ∧
      keptSources [] [collideR1, collideR2] = [collideR1] ∧
      format_sources_for_display [collideR1, collideR2] =
        joinWith ['\n'] (renderSourceLines collideR1) ∧
      (renderSourceLines collideR1).length = 1 := by
  refine ⟨by decide, by decide, by decide, ?_, by decide⟩
  decide

/-- C6 (counterexample): a docx file that parses successfully to zero body
elements contributes zero units, yet `ingest_all` still lists it among the
returned filenames — the filename list is not the list of files that
contributed at least one unit. -/
theorem ingest_all_lists_zero_unit_file :
    (ingest_all [("empty.docx".toList, some [])] []).1 = [] ∧
      (ingest_all [("empty.docx".toList, some [])] []).2 = ["empty.docx".toList] := by
  constructor <;> decide

lemma ingestDocx_snd (d : List (List Char × Option (List BodyElem))) :
    (ingestDocx d).2 = (d.filter (fun f => f.2.isSome)).map Prod.fst := by
  induction d with
  | nil => rfl
  | cons f rest ih =>
      cases h : f.2 with
      | none => simp [ingestDocx, h, ih]
      | some elems => simp [ingestDocx, h, ih]

lemma ingestXlsx_snd (x : List (List Char × Option (List Chunk))) :
    (ingestXlsx x).2 = (x.filter (fun f => f.2.isSome)).map Prod.fst := by
  induction x with
  | nil => rfl
  | cons f rest ih =>
      cases h : f.2 with
      | none => simp [ingestXlsx, h, ih]
      | some chunks => simp [ingestXlsx, h, ih]

/-- C6 (amended): the filename list returned by `ingest_all` is exactly the
(basenames of the) files whose parse succeeded, in discovery order — docx
files first, then xlsx files — regardless of how many units each
contributed; files whose parse raised are excluded. -/
theorem ingest_all_filenames_eq_parsed_files
    (d : List (List Char × Option (List BodyElem)))
    (x : List (List Char × Option (List Chunk))) :
    (ingest_all d x).2 =
      (d.filter (fun f => f.2.isSome)).map Prod.fst ++
        (x.filter (fun f => f.2.isSome)).map Prod.fst := by
  unfold ingest_all
  rw [← ingestDocx_snd, ← ingestXlsx_snd]

/-- Whether a body element is a heading-classified paragraph (tables are
never headings). -/
def elemIsHeading : BodyElem → Bool
  | .para p => is_section_heading p
  | .table _ => false

/-- A document whose only paragraph is a single whitespace run: no
paragraph is classified as a heading, and the body is blank. -/
def blankDoc : List BodyElem :=
  [.para ⟨[⟨[' '], false⟩]⟩]

/-- C8 (counterexample): a structured document with no heading-classified
paragraph need not produce an "Introduction" section at all — when the
accumulated body text is blank the final flush emits nothing, so
`parse_docx` returns zero sections, not exactly one. -/
theorem parse_docx_blank_doc_no_section :
    (∀ e ∈ blankDoc, elemIsHeading e = false) ∧
      parse_docx blankDoc "g.docx".toList = [] := by
  constructor
  · decide
  · decide

lemma parseLoop_no_headings (fn : List Char) (els : List BodyElem)
    (h : ∀ e ∈ els, elemIsHeading e = false) :
    ∀ cs parts, parseLoop fn els cs parts = flushSection fn cs (parts ++ bodyParts els) := by
  induction els with
  | nil => intro cs parts; simp [parseLoop, bodyParts]
  | cons e rest ih =>
      intro cs parts
      have he := h e (List.mem_cons_self e rest)
      have hrest : ∀ e' ∈ rest, elemIsHeading e' = false :=
        fun e' he' => h e' (List.mem_cons_of_mem e he')
      cases e with
      | para p =>
          have hp : is_section_heading p = false := by simpa [elemIsHeading] using he
          by_cases hempty : (pyStrip p.text).isEmpty
          · simp [parseLoop, hp, hempty, ih hrest, bodyParts]
          · simp [parseLoop, hp, hempty, ih hrest, bodyParts]
      | table rows =>
          by_cases hempty : (pyStrip (extract_table_text rows)).isEmpty
          · simp [parseLoop, hempty, ih hrest, bodyParts]
          · simp [parseLoop, hempty, ih hrest, bodyParts]

/-- C8 (amended): for a structured document in which no paragraph is
classified as a heading and whose accumulated body text is non-blank after
trimming, `parse_docx` returns exactly one section labeled "Introduction"
whose text is the full body content in document order. -/
theorem parse_docx_no_headings_single_intro (els : List BodyElem) (fn : List Char)
    (h1 : ∀ e ∈ els, elemIsHeading e = false)
    (h2 : (pyStrip (joinWith ['\n'] (bodyParts els))).isEmpty = false) :
    parse_docx els fn =
      [{ text := pyStrip (joinWith ['\n'] (bodyParts els)), source := fn,
         ctype := "sop".toList, sectionF := some "Introduction".toList }] := by
  unfold parse_docx
  rw [parseLoop_no_headings fn els h1 _ []]
  simp [flushSection, h2]

/-- A document with one non-bold body paragraph, used as the C8 witness. -/
def plainDoc : List BodyElem :=
  [.para ⟨[⟨"hello world".toList, false⟩]⟩]

theorem parse_docx_no_headings_single_intro_witness :
    ((∀ e ∈ plainDoc, elemIsHeading e = false) ∧
        (pyStrip (joinWith ['\n'] (bodyParts plainDoc))).isEmpty = false) ∧
      parse_docx plainDoc "g.docx".toList =
        [{ text := pyStrip (joinWith ['\n'] (bodyParts plainDoc)), source := "g.docx".toList,
           ctype := "sop".toList, sectionF := some "Introduction".toList }] :=
  ⟨⟨by decide, by decide⟩,
    parse_docx_no_headings_single_intro plainDoc "g.docx".toList (by decide) (by decide)⟩

/-- A bold paragraph whose raw text is 82 characters but whose cleaned
text (trailing `":- "` characters stripped) is only 11: the code's length
test uses the raw text, the claim's uses the cleaned text. -/
def dashPara : Para :=
  ⟨[⟨"hello world ".toList ++ List.replicate 70 '-', true⟩]⟩

/-- C9 (counterexample): `dashPara` passes every exclusion filter of
`_is_section_heading`, its cleaned text is under 80 characters with at
least 2 words and its uppercase ratio is below the threshold — so the
claim's acceptance condition holds — yet the code rejects it, because the
code compares the un-cleaned text's length against 80, not the cleaned
text's. -/
theorem is_section_heading_claim_counterexample :
    (pyStrip dashPara.text ≠ [] ∧ (pyStrip dashPara.text).length ≤ 120 ∧
        runsWithText dashPara ≠ [] ∧ (∀ r ∈ runsWithText dashPara, r.bold = true) ∧
        pyLower (cleanOf dashPara) ∉ GENERIC_LABELS ∧
        startsWith "owner:".toList (pyLower (cleanOf dashPara)) = false ∧
        startsWith "timing:".toList (pyLower (cleanOf dashPara)) = false ∧
        dialogueHit (pyLower (pyStrip dashPara.text)) = false) ∧
      ¬(is_section_heading dashPara = true ↔
          (3 * max (removeSpaces (pyStrip dashPara.text)).length 1 <
              5 * countUpper (pyStrip dashPara.text)) ∨
            ((cleanOf dashPara).length < 80 ∧ 2 ≤ (pyWords (cleanOf dashPara)).length)) := by
  constructor
  · decide
  · decide

/-- C9 (amended): for every paragraph that passes the length bound on the
stripped text, has a non-empty set of non-whitespace runs all of which are
bold, and passes the generic-label, `Owner:`/`Timing:` and
dialogue/template exclusions, `_is_section_heading` accepts exactly when
the uppercase ratio exceeds 0.6 or the *stripped full text* is under 80
characters and the cleaned text has at least 2 words. -/
theorem is_section_heading_positive_signals (p : Para)
    (h1 : pyStrip p.text ≠ [])
    (h2 : (pyStrip p.text).length ≤ 120)
    (h3 : runsWithText p ≠ [])
    (h4 : ∀ r ∈ runsWithText p, r.bold = true)
    (h5 : pyLower (cleanOf p) ∉ GENERIC_LABELS)
    (h6 : startsWith "owner:".toList (pyLower (cleanOf p)) = false)
    (h7 : startsWith "timing:".toList (pyLower (cleanOf p)) = false)
    (h8 : dialogueHit (pyLower (pyStrip p.text)) = false) :
    is_section_heading p = true ↔
      (3 * max (removeSpaces (pyStrip p.text)).length 1 < 5 * countUpper (pyStrip p.text)) ∨
        ((pyStrip p.text).length < 80 ∧ 2 ≤ (pyWords (cleanOf p)).length) := by
  unfold is_section_heading
  rw [if_neg (by push_neg; exact ⟨h1, h2⟩)]
  rw [if_neg h3]
  rw [if_neg (not_not_intro h4)]
  rw [if_neg h5]
  rw [if_neg (by simpa using h6)]
  rw [if_neg (by simpa using h7)]
  rw [if_neg (by simpa using h8)]
  by_cases hA : 3 * max (removeSpaces (pyStrip p.text)).length 1 < 5 * countUpper (pyStrip p.text)
  · simp [hA]
  · by_cases hB : (pyStrip p.text).length < 80 ∧ 2 ≤ (pyWords (cleanOf p)).length
    · simp [hA, hB]
    · simp [hA, hB]

/-- An all-caps bold title used as the C9 witness. -/
def headingPara : Para :=
  ⟨[⟨"REFUND POLICY".toList, true⟩]⟩

theorem is_section_heading_positive_signals_witness :
    (pyStrip headingPara.text ≠ [] ∧ (pyStrip headingPara.text).length ≤ 120 ∧
        runsWithText headingPara ≠ [] ∧ (∀ r ∈ runsWithText headingPara, r.bold = true) ∧
        pyLower (cleanOf headingPara) ∉ GENERIC_LABELS ∧
        startsWith "owner:".toList (pyLower (cleanOf headingPara)) = false ∧
        startsWith "timing:".toList (pyLower (cleanOf headingPara)) = false ∧
        dialogueHit (pyLower (pyStrip headingPara.text)) = false) ∧
      (is_section_heading headingPara = true ↔
        (3 * max (removeSpaces (pyStrip headingPara.text)).length 1 <
            5 * countUpper (pyStrip headingPara.text)) ∨
          ((pyStrip headingPara.text).length < 80 ∧
            2 ≤ (pyWords (cleanOf headingPara)).length)) :=
  ⟨by decide,
    is_section_heading_positive_signals headingPara (by decide) (by decide) (by decide)
      (by decide) (by decide) (by decide) (by decide) (by decide)⟩

lemma countP_range_min (m N : ℕ) :
    (List.range N).countP (fun i => decide (i < m)) = min N m := by
  induction N with
  | zero => simp
  | succ N ih =>
      rw [List.range_succ, List.countP_append, ih]
      by_cases h : N < m
      · simp [List.countP_cons, h]; omega
      · simp [List.countP_cons, h]; omega

lemma ulpShift_eq_of (p m : ℕ) (hm : m < 150) (hup : p < 2 ^ (53 + m))
    (hlo : ∀ i, i < m → 2 ^ (53 + i) ≤ p) : ulpShift p = m := by
  unfold ulpShift
  rw [← List.countP_eq_length_filter]
  have hcong : (List.range 150).countP (fun s => decide (2 ^ (53 + s) ≤ p)) =
      (List.range 150).countP (fun i => decide (i < m)) := by
    apply List.countP_congr
    intro x _
    simp only [decide_eq_true_eq]
    constructor
    · intro hx
      by_contra hge
      push_neg at hge
      exact absurd (le_trans (Nat.pow_le_pow_right (by norm_num) (by omega)) hx)
        (not_le.mpr hup)
    · exact hlo x
  rw [hcong, countP_range_min]
  omega

lemma roundHalfEven_bounds (q r twoS : ℕ) :
    q ≤ roundHalfEven q r twoS ∧ roundHalfEven q r twoS ≤ q + 1 := by
  unfold roundHalfEven
  split_ifs <;> omega

lemma pyApprox_eq (n : ℕ) (hn : n ≤ 2 ^ 48) : pyApproxTokenCount n = n * 13 / 10 := by
  by_cases hsmall : n ≤ 1
  · interval_cases n
    · decide
    · decide
  · push_neg at hsmall
    have hplo : 2 ^ 53 ≤ n * FL13 := by
      calc (2 : ℕ) ^ 53 ≤ 2 * FL13 := by norm_num [FL13]
        _ ≤ n * FL13 := Nat.mul_le_mul_right FL13 hsmall
    have hpub : n * FL13 < 2 ^ 101 := by
      calc n * FL13 ≤ 2 ^ 48 * FL13 := Nat.mul_le_mul_right FL13 hn
        _ < 2 ^ 101 := by norm_num [FL13]
    have hpne : n * FL13 ≠ 0 := by positivity
    have hb53 : 53 ≤ Nat.log2 (n * FL13) := (Nat.le_log2 hpne).mpr hplo
    have hb100 : Nat.log2 (n * FL13) ≤ 100 := by
      have := (Nat.log2_lt hpne).mpr hpub
      omega
    have hb1 : 2 ^ Nat.log2 (n * FL13) ≤ n * FL13 := Nat.log2_self_le hpne
    have hb2 : n * FL13 < 2 ^ (Nat.log2 (n * FL13) + 1) := Nat.lt_log2_self
    have hs : ulpShift (n * FL13) = Nat.log2 (n * FL13) - 52 := by
      apply ulpShift_eq_of
      · omega
      · have he : 53 + (Nat.log2 (n * FL13) - 52) = Nat.log2 (n * FL13) + 1 := by omega
        rw [he]; exact hb2
      · intro i hi
        exact le_trans (Nat.pow_le_pow_right (by norm_num) (by omega)) hb1
    have hs0 : ulpShift (n * FL13) ≠ 0 := by omega
    rw [pyApproxTokenCount, if_neg hs0]
    set sh := ulpShift (n * FL13) with hsh
    have hsh48 : sh ≤ 48 := by omega
    have hsh1 : 1 ≤ sh := by omega
    set p := n * FL13 with hpdef
    set k := n * 13 / 10 with hk
    set f := n * 13 % 10 with hf
    have hkf : 10 * k + f = 13 * n := by
      have := Nat.div_add_mod (n * 13) 10
      omega
    have hf9 : f ≤ 9 := by
      have : f < 10 := Nat.mod_lt _ (by norm_num)
      omega
    have h10p : 10 * p = 13 * n * 2 ^ 52 + 2 * n := by
      have h13 : (10 : ℕ) * FL13 = 13 * 2 ^ 52 + 2 := by norm_num [FL13]
      calc 10 * p = n * (10 * FL13) := by rw [hpdef]; ring
        _ = n * (13 * 2 ^ 52 + 2) := by rw [h13]
        _ = 13 * n * 2 ^ 52 + 2 * n := by ring
    set q := p / 2 ^ sh with hq
    set r := p % 2 ^ sh with hr
    set M := roundHalfEven q r (2 ^ sh) with hM
    have hMb := roundHalfEven_bounds q r (2 ^ sh)
    have hkp : k * 2 ^ 52 ≤ p := by
      have h1 : 10 * (k * 2 ^ 52) ≤ 10 * p := by
        rw [h10p]
        calc 10 * (k * 2 ^ 52) = (10 * k) * 2 ^ 52 := by ring
          _ ≤ (10 * k + f) * 2 ^ 52 := by gcongr; omega
          _ = 13 * n * 2 ^ 52 := by rw [hkf]
          _ ≤ 13 * n * 2 ^ 52 + 2 * n := Nat.le_add_right _ _
      exact Nat.le_of_mul_le_mul_left h1 (by norm_num)
    have hsplit : (2 : ℕ) ^ 52 = 2 ^ (52 - sh) * 2 ^ sh := by
      rw [← pow_add]
      congr 1
      omega
    have hq_lo : k * 2 ^ 52 ≤ q * 2 ^ sh := by
      have hdiv : k * 2 ^ (52 - sh) ≤ q := by
        rw [hq]
        rw [Nat.le_div_iff_mul_le (Nat.pos_pow_of_pos sh (by norm_num))]
        calc k * 2 ^ (52 - sh) * 2 ^ sh = k * (2 ^ (52 - sh) * 2 ^ sh) := by ring
          _ = k * 2 ^ 52 := by rw [← hsplit]
          _ ≤ p := hkp
      calc k * 2 ^ 52 = k * 2 ^ (52 - sh) * 2 ^ sh := by rw [hsplit]; ring
        _ ≤ q * 2 ^ sh := by gcongr
    have hq_hi : q * 2 ^ sh ≤ p := Nat.div_mul_le_self p (2 ^ sh)
    have hup : p + 2 ^ sh < (k + 1) * 2 ^ 52 := by
      have h1 : 10 * (p + 2 ^ sh) < 10 * ((k + 1) * 2 ^ 52) := by
        have hshpow : (2 : ℕ) ^ sh ≤ 2 ^ 48 := Nat.pow_le_pow_right (by norm_num) hsh48
        calc 10 * (p + 2 ^ sh) = 10 * p + 10 * 2 ^ sh := by ring
          _ = 13 * n * 2 ^ 52 + 2 * n + 10 * 2 ^ sh := by rw [h10p]
          _ = (10 * k + f) * 2 ^ 52 + 2 * n + 10 * 2 ^ sh := by rw [hkf]
          _ ≤ (10 * k + 9) * 2 ^ 52 + 2 * 2 ^ 48 + 10 * 2 ^ 48 := by gcongr
          _ < (10 * k + 10) * 2 ^ 52 := by
              have : (10 * k + 9) * 2 ^ 52 + 2 ^ 52 = (10 * k + 10) * 2 ^ 52 := by ring
              omega
          _ = 10 * ((k + 1) * 2 ^ 52) := by ring
      exact Nat.lt_of_mul_lt_mul_left h1
    apply Nat.div_eq_of_lt_le
    · calc k * 2 ^ 52 ≤ q * 2 ^ sh := hq_lo
        _ ≤ M * 2 ^ sh := by gcongr; exact hMb.1
    · calc M * 2 ^ sh ≤ (q + 1) * 2 ^ sh := by gcongr; exact hMb.2
        _ = q * 2 ^ sh + 2 ^ sh := by ring
        _ ≤ p + 2 ^ sh := by gcongr
        _ < (k + 1) * 2 ^ 52 := hup

lemma pyWords_wordsRep (n : ℕ) : pyWords (wordsRep n) = List.replicate n ['a'] := by
  induction n with
  | zero => rfl
  | succ n ih =>
      show wordsAux ('a' :: ' ' :: wordsRep n) [] = List.replicate (n + 1) ['a']
      have h1 : pyIsSpace 'a' = false := by decide
      have h2 : pyIsSpace ' ' = true := by decide
      rw [wordsAux, h1]
      simp only [Bool.false_eq_true, if_false]
      rw [wordsAux, h2]
      simp only [if_true, List.isEmpty_cons, List.reverse_cons, List.reverse_nil,
        List.nil_append, List.replicate_succ]
      simp only [Bool.false_eq_true, if_false]
      exact congrArg _ ih

lemma countWords_wordsRep (n : ℕ) : countWords (wordsRep n) = n := by
  unfold countWords
  rw [pyWords_wordsRep]
  exact List.length_replicate n ['a']

/-- C4 (counterexample): on a concrete string of `10^15 + 3` words the
value computed by `_approx_token_count` — IEEE-754 `int(words * 1.3)` —
is `1300000000000004`, one more than `floor(words * 13 / 10) =
1300000000000003`: the float estimate is not the exact rational floor on
every string. -/
theorem approx_token_count_float_divergence :
    approx_token_count (wordsRep (10 ^ 15 + 3)) ≠
      countWords (wordsRep (10 ^ 15 + 3)) * 13 / 10 := by
  unfold approx_token_count
  rw [countWords_wordsRep]
  decide

/-- C4 (amended): for every string of at most `2^48` whitespace-separated
words (far beyond any real document), `_approx_token_count` equals the
word count times 1.3 rounded down, i.e. `floor(words * 13 / 10)` in exact
rational arithmetic; the IEEE-754 rounding in `int(len(text.split())*1.3)`
only diverges from the exact floor at astronomically large word counts. -/
theorem approx_token_count_eq_exact_floor (s : List Char)
    (h : countWords s ≤ 2 ^ 48) :
    approx_token_count s = countWords s * 13 / 10 :=
  pyApprox_eq (countWords s) h

theorem approx_token_count_eq_exact_floor_witness :
    countWords "hello brave new world".toList ≤ 2 ^ 48 ∧
      approx_token_count "hello brave new world".toList =
        countWords "hello brave new world".toList * 13 / 10 :=
  ⟨by decide, approx_token_count_eq_exact_floor "hello brave new world".toList (by decide)⟩

lemma sumTok_append (l1 l2 : List (List Char)) : sumTok (l1 ++ l2) = sumTok l1 + sumTok l2 := by
  simp [sumTok]

lemma overlapGo_sum (ovT : ℕ) :
    ∀ l acc cnt, cnt = sumTok acc → cnt ≤ ovT → sumTok (overlapGo ovT l acc cnt) ≤ ovT := by
  intro l
  induction l with
  | nil =>
      intro acc cnt h1 h2
      rw [overlapGo, ← h1]
      exact h2
  | cons s rest ih =>
      intro acc cnt h1 h2
      rw [overlapGo]
      split_ifs with h
      · rw [← h1]; exact h2
      · push_neg at h
        exact ih (s :: acc) (cnt + approx_token_count s) (by simp [sumTok, h1]; ring) h

lemma overlapSuffix_sum (ovT : ℕ) (cur : List (List Char)) :
    sumTok (overlapSuffix ovT cur) ≤ ovT :=
  overlapGo_sum ovT cur.reverse [] 0 (by simp [sumTok]) (Nat.zero_le _)

lemma sentSplitAux_ne_nil : ∀ fuel l acc, sentSplitAux fuel l acc ≠ [] := by
  intro fuel
  induction fuel with
  | zero => intro l acc; rw [sentSplitAux.eq_def]; simp
  | succ fuel ih =>
      intro l acc
      cases l with
      | nil => rw [sentSplitAux]; simp
      | cons c rest =>
          rw [sentSplitAux]
          split_ifs with h
          · simp
          · exact ih rest (c :: acc)

lemma splitGo_ne_nil (maxT ovT : ℕ) :
    ∀ sents cur tk, ¬(sents = [] ∧ cur = []) → splitGo maxT ovT sents cur tk ≠ [] := by
  intro sents
  induction sents with
  | nil =>
      intro cur tk h
      have hc : cur ≠ [] := fun hcur => h ⟨rfl, hcur⟩
      rw [splitGo, if_neg hc]
      simp
  | cons s rest ih =>
      intro cur tk _
      rw [splitGo]
      split_ifs with h
      · simp
      · exact ih (cur ++ [s]) (tk + approx_token_count s) (by simp)

lemma splitGo_bound (maxT ovT : ℕ) (hov : ovT ≤ maxT) :
    ∀ sents cur tk, tk = sumTok cur →
      (cur = [] ∨ ∃ s ∈ cur, sumTok cur ≤ maxT + approx_token_count s) →
      ∀ L ∈ splitGo maxT ovT sents cur tk,
        L ≠ [] ∧ ∃ s ∈ L, sumTok L ≤ maxT + approx_token_count s := by
  intro sents
  induction sents with
  | nil =>
      intro cur tk h1 h2 L hL
      rw [splitGo] at hL
      by_cases hc : cur = []
      · simp [hc] at hL
      · rw [if_neg hc] at hL
        have hLc : L = cur := by simpa using hL
        subst hLc
        refine ⟨hc, ?_⟩
        rcases h2 with h | h
        · exact absurd h hc
        · exact h
  | cons s rest ih =>
      intro cur tk h1 h2 L hL
      rw [splitGo] at hL
      by_cases hcond : tk + approx_token_count s > maxT ∧ cur ≠ []
      · rw [if_pos hcond] at hL
        rcases List.mem_cons.mp hL with hL | hL
        · subst hL
          refine ⟨hcond.2, ?_⟩
          rcases h2 with h | h
          · exact absurd h hcond.2
          · exact h
        · have h4 : sumTok [s] = approx_token_count s := by simp [sumTok]
          have harg1 : sumTok (overlapSuffix ovT cur) + approx_token_count s =
              sumTok (overlapSuffix ovT cur ++ [s]) := by
            rw [sumTok_append]; omega
          have hbound : sumTok (overlapSuffix ovT cur ++ [s]) ≤ maxT + approx_token_count s := by
            rw [sumTok_append]
            have h3 := overlapSuffix_sum ovT cur
            omega
          exact ih (overlapSuffix ovT cur ++ [s]) _ harg1 (Or.inr ⟨s, by simp, hbound⟩) L hL
      · rw [if_neg hcond] at hL
        have h4 : sumTok [s] = approx_token_count s := by simp [sumTok]
        have harg1 : tk + approx_token_count s = sumTok (cur ++ [s]) := by
          rw [sumTok_append, ← h1]; omega
        have hbound : sumTok (cur ++ [s]) ≤ maxT + approx_token_count s := by
          rcases not_and_or.mp hcond with h | h
          · push_neg at h
            rw [sumTok_append, ← h1]
            omega
          · have hc : cur = [] := not_not.mp h
            subst hc
            simp only [List.nil_append]
            omega
        exact ih (cur ++ [s]) _ harg1 (Or.inr ⟨s, by simp, hbound⟩) L hL

lemma splitGo_head (maxT ovT : ℕ) :
    ∀ sents cur tk, splitGo maxT ovT sents cur tk = [] ∨
      ∃ r t, splitGo maxT ovT sents cur tk = (cur ++ r) :: t := by
  intro sents
  induction sents with
  | nil =>
      intro cur tk
      rw [splitGo]
      by_cases hc : cur = []
      · left; simp [hc]
      · right; exact ⟨[], [], by rw [if_neg hc]; simp⟩
  | cons s rest ih =>
      intro cur tk
      rw [splitGo]
      split_ifs with h
      · right
        exact ⟨[], splitGo maxT ovT rest (overlapSuffix ovT cur ++ [s])
          (sumTok (overlapSuffix ovT cur) + approx_token_count s), by simp⟩
      · rcases ih (cur ++ [s]) (tk + approx_token_count s) with h0 | ⟨r, t, ht⟩
        · left; exact h0
        · right; exact ⟨[s] ++ r, t, by rw [ht]; simp⟩

lemma splitGo_chain (maxT ovT : ℕ) :
    ∀ sents cur tk, List.Chain' (fun A B => ∃ r, B = overlapSuffix ovT A ++ r)
      (splitGo maxT ovT sents cur tk) := by
  intro sents
  induction sents with
  | nil =>
      intro cur tk
      rw [splitGo]
      split_ifs <;> simp
  | cons s rest ih =>
      intro cur tk
      rw [splitGo]
      split_ifs with h
      · rw [List.chain'_cons']
        refine ⟨?_, ih _ _⟩
        intro y hy
        rcases splitGo_head maxT ovT rest (overlapSuffix ovT cur ++ [s])
            (sumTok (overlapSuffix ovT cur) + approx_token_count s) with h0 | ⟨r, t, ht⟩
        · rw [h0] at hy; simp at hy
        · rw [ht] at hy
          simp only [List.head?_cons, Option.mem_def, Option.some.injEq] at hy
          subst hy
          exact ⟨[s] ++ r, by simp⟩
      · exact ih _ _

/-- An oversized unit whose text contains no sentence boundary. -/
def unsplittableChunk : Chunk :=
  { text := "a a a".toList, source := "s.docx".toList, ctype := "sop".toList }

/-- An oversized unit made of nine one-word sentences. -/
def manySentencesChunk : Chunk :=
  { text := "a. a. a. a. a. a. a. a. a.".toList, source := "s.docx".toList,
    ctype := "sop".toList }

/-- C2 (counterexample): both universally quantified parts of the claim
fail.  (1) `unsplittableChunk` estimates above `max_tokens = 2` but has a
single sentence, so `_split_large_chunk` returns one sub-chunk, not at
least two.  (2) `manySentencesChunk` estimates above `max_tokens = 7` with
every sentence estimating at most 1 token, yet a produced sub-chunk's text
estimates to more than `7 + 1` tokens (the per-sentence floors under-count
the joined text). -/
theorem split_large_chunk_claim_counterexample :
    (2 < approx_token_count unsplittableChunk.text ∧
        (split_large_chunk unsplittableChunk 2 1).length = 1) ∧
      (7 < approx_token_count manySentencesChunk.text ∧
        (∀ s ∈ sentSplit manySentencesChunk.text, approx_token_count s ≤ 1) ∧
        ∃ d ∈ split_large_chunk manySentencesChunk 7 0,
          7 + 1 < approx_token_count d.text) := by
  refine ⟨⟨by decide, by decide⟩, by decide, by decide, ?_⟩
  decide

/-- C2 (amended): for a unit whose estimated token count exceeds
`max_tokens`, with `overlap_tokens ≤ max_tokens`, `_split_large_chunk`
(1) maps the loop's emitted sentence groups to sub-chunks in order,
(2) returns at least one sub-chunk (a single sentence-group may survive
whole, so "at least 2" does not hold in general), (3) gives every emitted
sentence group a non-empty sentence list whose summed per-sentence
estimates stay within `max_tokens` plus one of its sentences' estimates
(the joined text's estimate may exceed this, by part 2 of the
counterexample), and (4) starts every group after the first with the
overlap suffix computed from its predecessor's sentences. -/
theorem split_large_chunk_oversized_properties (c : Chunk) (maxT ovT : ℕ)
    (hover : maxT < approx_token_count c.text) (hov : ovT ≤ maxT) :
    split_large_chunk c maxT ovT =
        (splitGo maxT ovT (sentSplit c.text) [] 0).map
          (fun L => { c with
            text := (match c.sectionF with
              | some s => if s.isEmpty then [] else "## ".toList ++ s ++ ['\n']
              | none => []) ++ joinWith [' '] L }) ∧
      1 ≤ (split_large_chunk c maxT ovT).length ∧
      (∀ L ∈ splitGo maxT ovT (sentSplit c.text) [] 0,
          L ≠ [] ∧ ∃ s ∈ L, sumTok L ≤ maxT + approx_token_count s) ∧
      List.Chain' (fun A B => ∃ r, B = overlapSuffix ovT A ++ r)
        (splitGo maxT ovT (sentSplit c.text) [] 0) := by
  have heq : split_large_chunk c maxT ovT =
      (splitGo maxT ovT (sentSplit c.text) [] 0).map
        (fun L => { c with
          text := (match c.sectionF with
            | some s => if s.isEmpty then [] else "## ".toList ++ s ++ ['\n']
            | none => []) ++ joinWith [' '] L }) := by
    rw [split_large_chunk, if_neg (not_le.mpr hover)]
  refine ⟨heq, ?_, ?_, ?_⟩
  · rw [heq, List.length_map]
    have hne : splitGo maxT ovT (sentSplit c.text) [] 0 ≠ [] := by
      apply splitGo_ne_nil
      intro hcontra
      exact sentSplitAux_ne_nil _ _ _ hcontra.1
    exact List.length_pos.mpr hne
  · exact splitGo_bound maxT ovT hov (sentSplit c.text) [] 0 (by simp [sumTok]) (Or.inl rfl)
  · exact splitGo_chain maxT ovT (sentSplit c.text) [] 0

theorem split_large_chunk_oversized_properties_witness :
    (1 < approx_token_count sampleChunk.text ∧ 0 ≤ 1) ∧
      (split_large_chunk sampleChunk 1 0 =
          (splitGo 1 0 (sentSplit sampleChunk.text) [] 0).map
            (fun L => { sampleChunk with
              text := (match sampleChunk.sectionF with
                | some s => if s.isEmpty then [] else "## ".toList ++ s ++ ['\n']
                | none => []) ++ joinWith [' '] L }) ∧
        1 ≤ (split_large_chunk sampleChunk 1 0).length ∧
        (∀ L ∈ splitGo 1 0 (sentSplit sampleChunk.text) [] 0,
            L ≠ [] ∧ ∃ s ∈ L, sumTok L ≤ 1 + approx_token_count s) ∧
        List.Chain' (fun A B => ∃ r, B = overlapSuffix 0 A ++ r)
          (splitGo 1 0 (sentSplit sampleChunk.text) [] 0)) :=
  ⟨⟨by decide, by decide⟩,
    split_large_chunk_oversized_properties sampleChunk 1 0 (by decide) (by decide)⟩

lemma keptSources_sublist : ∀ (rs : List ScoredResult) (seen : List (List Char)),
    (keptSources seen rs).Sublist rs := by
  intro rs
  induction rs with
  | nil => intro seen; simp [keptSources]
  | cons r rest ih =>
      intro seen
      rw [keptSources]
      split_ifs with h
      · exact (ih seen).cons r
      · exact (ih (strKey r :: seen)).cons₂ r

lemma keptSources_nodup : ∀ (rs : List ScoredResult) (seen : List (List Char)),
    ((keptSources seen rs).map strKey).Nodup ∧
      ∀ r' ∈ keptSources seen rs, strKey r' ∉ seen := by
  intro rs
  induction rs with
  | nil => intro seen; simp [keptSources]
  | cons r rest ih =>
      intro seen
      rw [keptSources]
      split_ifs with h
      · exact ⟨(ih seen).1, (ih seen).2⟩
      · constructor
        · rw [List.map_cons, List.nodup_cons]
          constructor
          · intro hmem
            rcases List.mem_map.mp hmem with ⟨r', hr', hkey⟩
            exact (ih (strKey r :: seen)).2 r' hr' (hkey ▸ List.mem_cons_self _ _)
          · exact (ih (strKey r :: seen)).1
        · intro r' hr'
          rcases List.mem_cons.mp hr' with hr' | hr'
          · subst hr'; exact h
          · intro hseen
            exact (ih (strKey r :: seen)).2 r' hr' (List.mem_cons_of_mem _ hseen)

lemma keptSources_covers : ∀ (rs : List ScoredResult) (seen : List (List Char))
    (r : ScoredResult), r ∈ rs → strKey r ∉ seen →
    ∃ r' ∈ keptSources seen rs, strKey r' = strKey r := by
  intro rs
  induction rs with
  | nil => intro seen r hr; simp at hr
  | cons x rest ih =>
      intro seen r hr hns
      rw [keptSources]
      rcases List.mem_cons.mp hr with hr | hr
      · subst hr
        rw [if_neg hns]
        exact ⟨r, List.mem_cons_self _ _, rfl⟩
      · split_ifs with h
        · rcases ih seen r hr hns with ⟨r', hr', hk⟩
          exact ⟨r', hr', hk⟩
        · by_cases hk : strKey r = strKey x
          · exact ⟨x, List.mem_cons_self _ _, hk.symm⟩
          · have hns' : strKey r ∉ strKey x :: seen := by
              intro hmem
              rcases List.mem_cons.mp hmem with hmem | hmem
              · exact hk hmem
              · exact hns hmem
            rcases ih (strKey x :: seen) r hr hns' with ⟨r', hr', hkk⟩
            exact ⟨r', List.mem_cons_of_mem _ hr', hkk⟩

lemma tupleKey_eq_imp_strKey_eq (a b : ScoredResult) (h : tupleKey a = tupleKey b) :
    strKey a = strKey b := by
  unfold tupleKey at h
  unfold strKey
  by_cases ha : a.chunk.ctype = "faq".toList <;> by_cases hb : b.chunk.ctype = "faq".toList
  · rw [if_pos ha, if_pos hb] at h ⊢
    rw [DedupKey.faq.inj h]
  · rw [if_pos ha, if_neg hb] at h
    exact DedupKey.noConfusion h
  · rw [if_neg ha, if_pos hb] at h
    exact DedupKey.noConfusion h
  · rw [if_neg ha, if_neg hb] at h ⊢
    obtain ⟨h1, h2⟩ := DedupKey.sop.inj h
    rw [h1, h2]

lemma sourcesLoop_eq_kept : ∀ (rs : List ScoredResult) (seen : List (List Char)),
    sourcesLoop seen rs = (keptSources seen rs).flatMap renderSourceLines := by
  intro rs
  induction rs with
  | nil => intro seen; simp [sourcesLoop, keptSources]
  | cons r rest ih =>
      intro seen
      rw [sourcesLoop, keptSources]
      split_ifs with h
      · exact ih seen
      · rw [List.flatMap_cons, ih (strKey r :: seen)]

/-- C7: `format_sources_for_display` never emits two citation entries for
the same deduplication key: the kept results are a subsequence of the
input (order preserved), their spec-level tuple keys — `(kind, question)`
for FAQ results, `(kind, source, section)` for SOP results — are pairwise
distinct, every input result's key is represented by a kept result (first
occurrence wins, later duplicates dropped), and the rendered output is the
newline-join of the kept results' lines. -/
theorem format_sources_display_dedup (results : List ScoredResult) :
    (keptSources [] results).Sublist results ∧
      ((keptSources [] results).map tupleKey).Nodup ∧
      (∀ r ∈ results, ∃ r' ∈ keptSources [] results, strKey r' = strKey r) ∧
      format_sources_for_display results =
        (if results.isEmpty then "No sources found.".toList
         else joinWith ['\n'] ((keptSources [] results).flatMap renderSourceLines)) := by
  refine ⟨keptSources_sublist results [], ?_, ?_, ?_⟩
  · have hstr := (keptSources_nodup results []).1
    have hkept : (keptSources [] results).Nodup := hstr.of_map strKey
    rw [List.nodup_map_iff_inj_on hkept]
    intro x hx y hy hxy
    exact List.inj_on_of_nodup_map hstr hx hy (tupleKey_eq_imp_strKey_eq x y hxy)
  · intro r hr
    exact keptSources_covers results [] r hr (by simp)
  · rw [format_sources_for_display, sourcesLoop_eq_kept]

/-- A sample FAQ chunk used by the C1 witness corpus. -/
def faqChunk : Chunk :=
  { text := "Q: x\nA: y".toList, source := "faq.xlsx".toList, ctype := "faq".toList,
    sectionF := some "FAQ — Pay".toList, topic := some "Pay".toList,
    location := some "US".toList, question := some "x".toList,
    resource_link := some [] }

/-- C1: when the index is built by embedding the corpus texts in corpus
order and adding them row by row, every (score, row) pair the index search
returns with a valid row id `i` is turned by `search` into a result
carrying exactly `metadata[i]` (the corpus unit at position `i`) with the
score attached — and row `i` of the index holds the embedding of that very
unit's text. -/
theorem search_maps_row_to_corpus_unit (chunks : List Chunk)
    (encode : List Char → List ℚ)
    (fsearch : List (List ℚ) → List ℚ → ℕ → List (ℚ × ℤ))
    (query : List Char) (top_k : ℕ) (sc : ℚ) (i : ℤ)
    (hmem : (sc, i) ∈ (build_vector_store chunks encode fsearch).searchFn (encode query)
        (min top_k (build_vector_store chunks encode fsearch).ntotal))
    (h0 : 0 ≤ i) (hlt : i.toNat < chunks.length) :
    (⟨chunks.get ⟨i.toNat, hlt⟩, sc⟩ : ScoredResult) ∈
        search query (some (build_vector_store chunks encode fsearch)) chunks encode top_k ∧
      (build_vector_store chunks encode fsearch).vecs.get? i.toNat =
        some (encode (chunks.get ⟨i.toNat, hlt⟩).text) := by
  constructor
  · have hne : chunks.isEmpty = false := by
      cases chunks with
      | nil => simp at hlt
      | cons a l => rfl
    show (⟨chunks.get ⟨i.toNat, hlt⟩, sc⟩ : ScoredResult) ∈
      (if chunks.isEmpty then [] else
        ((build_vector_store chunks encode fsearch).searchFn (encode query)
            (min top_k (build_vector_store chunks encode fsearch).ntotal)).filterMap
          (fun (si : ℚ × ℤ) =>
            if si.2 < 0 then none
            else
              match chunks.get? si.2.toNat with
              | some c => some (⟨c, si.1⟩ : ScoredResult)
              | none => none))
    rw [hne]
    simp only [Bool.false_eq_true, if_false]
    apply List.mem_filterMap.mpr
    refine ⟨(sc, i), hmem, ?_⟩
    rw [if_neg (not_lt.mpr h0)]
    rw [List.get?_eq_get hlt]
  · show (chunks.map (fun c => encode c.text)).get? i.toNat =
      some (encode (chunks.get ⟨i.toNat, hlt⟩).text)
    rw [List.get?_map, List.get?_eq_get hlt]
    rfl

/-- A concrete stand-in encoder for witnesses: embeds a text as the
one-dimensional vector holding its length. -/
def witEncode (t : List Char) : List ℚ := [(t.length : ℚ)]

/-- A concrete stand-in FAISS search for witnesses: always returns row 1
with score 2. -/
def witSearchFn (_ : List (List ℚ)) (_ : List ℚ) (_ : ℕ) : List (ℚ × ℤ) :=
  [((2 : ℚ), (1 : ℤ))]

theorem search_maps_row_to_corpus_unit_witness :
    (((2 : ℚ), (1 : ℤ)) ∈
        (build_vector_store [sampleChunk, faqChunk] witEncode witSearchFn).searchFn
          (witEncode "q".toList)
          (min 5 (build_vector_store [sampleChunk, faqChunk] witEncode witSearchFn).ntotal) ∧
      (0 : ℤ) ≤ 1 ∧ (1 : ℤ).toNat < [sampleChunk, faqChunk].length) ∧
      ((⟨[sampleChunk, faqChunk].get ⟨(1 : ℤ).toNat, by decide⟩, (2 : ℚ)⟩ : ScoredResult) ∈
          search "q".toList (some (build_vector_store [sampleChunk, faqChunk] witEncode witSearchFn))
            [sampleChunk, faqChunk] witEncode 5 ∧
        (build_vector_store [sampleChunk, faqChunk] witEncode witSearchFn).vecs.get? (1 : ℤ).toNat =
          some (witEncode ([sampleChunk, faqChunk].get ⟨(1 : ℤ).toNat, by decide⟩).text)) :=
  ⟨⟨by decide, by decide, by decide⟩,
    search_maps_row_to_corpus_unit [sampleChunk, faqChunk] witEncode witSearchFn
      "q".toList 5 2 1 (by decide) (by decide) (by decide)⟩
